import Mathlib

/-!
Shallow embedding of the context-window-management core of the Zorac chat
client (token accounting, conversation compaction, summary detection, and
session persistence), together with theorems settling the specification
claims about it.

Source files embedded: `zorac/utils.py` (`count_tokens`), `zorac/llm.py`
(`summarize_old_messages`), `zorac/handlers.py` (`cmd_summary` detection and
extraction), `zorac/session.py` (`save_session` / `load_session`).
-/

namespace Zorac

/-- A chat message as used by the compactor and the session store: a dict
with a `role` and a `content` string (`zorac` messages carry exactly these
two keys on every path relevant to compaction and persistence). -/
structure Msg where
  role : String
  content : String
deriving DecidableEq, Repr

instance : Inhabited Msg := ⟨⟨"", ""⟩⟩

/-! ## Token accounting (`utils.count_tokens`)

`count_tokens` iterates over every field value of every message dict, so for
this function messages are modelled with their full field lists.  The
tiktoken encoder is abstracted as a function `enc : String → Nat` giving the
length of `encoding.encode(value)`. -/

/-- One element of a list-valued message field. `textPart t` models a dict
part carrying a `"text"` key whose value prints as the string `t`
(`str(part["text"])`); `otherPart` models a non-dict part or a dict without
a `"text"` key. -/
inductive Part where
  | textPart (t : String)
  | otherPart
deriving DecidableEq, Repr

/-- A message field value as inspected by `count_tokens`:
a plain string, a list of parts, or anything else (the implicit
`else` of the `isinstance` chain, contributing nothing). -/
inductive FieldVal where
  | str (s : String)
  | parts (ps : List Part)
  | other
deriving DecidableEq, Repr

/-- A message as iterated by `count_tokens`: the ordered `(key, value)`
pairs produced by `message.items()`. -/
structure TokMsg where
  fields : List (String × FieldVal)
deriving DecidableEq, Repr

/-- Embedding of `utils.count_tokens`: 4 tokens of envelope overhead per message, the
encoded length of every string field value, the encoded length of the text
of every text-carrying part of every list field value, plus 2 tokens of
reply-priming overhead at the end.  The accumulator mirrors the imperative
`num_tokens` of the source. -/
def count_tokens (enc : String → Nat) (messages : List TokMsg) : Nat :=
  let num_tokens := messages.foldl
    (fun num_tokens message =>
      let num_tokens := num_tokens + 4
      message.fields.foldl
        (fun num_tokens kv =>
          match kv.2 with
          | .str s => num_tokens + enc s
          | .parts ps =>
              ps.foldl
                (fun num_tokens part =>
                  match part with
                  | .textPart t => num_tokens + enc t
                  | .otherPart => num_tokens)
                num_tokens
          | .other => num_tokens)
        num_tokens)
    0
  num_tokens + 2

/-- Token contribution of a single part (closed form). -/
def partTokens (enc : String → Nat) : Part → Nat
  | .textPart t => enc t
  | .otherPart => 0

/-- Token contribution of a single field value (closed form). -/
def fieldTokens (enc : String → Nat) : FieldVal → Nat
  | .str s => enc s
  | .parts ps => (ps.map (partTokens enc)).sum
  | .other => 0

/-- Token contribution of a single message (closed form): envelope overhead
plus the contributions of its field values. -/
def msgTokens (enc : String → Nat) (m : TokMsg) : Nat :=
  4 + (m.fields.map (fun kv => fieldTokens enc kv.2)).sum

/-- A left fold that only ever adds to its accumulator computes the
starting value plus the sum of the per-element contributions. -/
theorem foldlAddEq {α : Type} (g : Nat → α → Nat) (f : α → Nat)
    (hg : ∀ n x, g n x = n + f x) :
    ∀ (l : List α) (n : Nat), l.foldl g n = n + (l.map f).sum := by
  intro l
  induction l with
  | nil => intro n; simp
  | cons a t ih =>
      intro n
      simp only [List.foldl_cons, List.map_cons, List.sum_cons, hg]
      rw [ih]
      omega

theorem count_tokens_parts_fold (enc : String → Nat) :
    ∀ (ps : List Part) (n : Nat),
      ps.foldl
        (fun num_tokens part =>
          match part with
          | Part.textPart t => num_tokens + enc t
          | Part.otherPart => num_tokens) n
        = n + (ps.map (partTokens enc)).sum := by
  refine foldlAddEq _ (partTokens enc) ?_
  intro n x
  cases x <;> simp [partTokens]

theorem count_tokens_fields_fold (enc : String → Nat) :
    ∀ (fs : List (String × FieldVal)) (n : Nat),
      fs.foldl
        (fun num_tokens kv =>
          match kv.2 with
          | FieldVal.str s => num_tokens + enc s
          | FieldVal.parts ps =>
              ps.foldl
                (fun num_tokens part =>
                  match part with
                  | Part.textPart t => num_tokens + enc t
                  | Part.otherPart => num_tokens)
                num_tokens
          | FieldVal.other => num_tokens) n
        = n + (fs.map (fun kv => fieldTokens enc kv.2)).sum := by
  refine foldlAddEq _ _ ?_
  intro n kv
  rcases kv with ⟨k, v⟩
  cases v with
  | str s => simp [fieldTokens]
  | parts ps => simp [fieldTokens, count_tokens_parts_fold]
  | other => simp [fieldTokens]

/-- Closed form of `count_tokens`: 2 plus, for each message, 4 plus the
per-field contributions. -/
theorem count_tokens_closed (enc : String → Nat) (messages : List TokMsg) :
    count_tokens enc messages = 2 + (messages.map (msgTokens enc)).sum := by
  unfold count_tokens
  have h := foldlAddEq
    (fun num_tokens (message : TokMsg) =>
      message.fields.foldl
        (fun num_tokens kv =>
          match kv.2 with
          | FieldVal.str s => num_tokens + enc s
          | FieldVal.parts ps =>
              ps.foldl
                (fun num_tokens part =>
                  match part with
                  | Part.textPart t => num_tokens + enc t
                  | Part.otherPart => num_tokens)
                num_tokens
          | FieldVal.other => num_tokens)
        (num_tokens + 4))
    (msgTokens enc)
    (by
      intro n m
      simp only [count_tokens_fields_fold, msgTokens]
      omega)
    messages 0
  simp only [h]
  omega

/-- C2: `count_tokens` is exactly 2 plus, per message, 4 plus the encoded
length of each string field and of the text of each text part of each list
field; the empty conversation costs exactly 2. -/
theorem claim_count_tokens (enc : String → Nat) (messages : List TokMsg) :
    count_tokens enc messages
        = 2 + (messages.map (fun m =>
            4 + (m.fields.map (fun kv => fieldTokens enc kv.2)).sum)).sum
      ∧ count_tokens enc [] = 2 := by
  constructor
  · have h := count_tokens_closed enc messages
    simp only [msgTokens] at h
    exact h
  · simp [count_tokens]

/-! ## Python slice semantics

`summarize_old_messages` slices the message list with
`messages[1:-KEEP_RECENT_MESSAGES]` and `messages[-KEEP_RECENT_MESSAGES:]`.
These are embedded with Python's slice-bound resolution: a negative bound
counts from the end and clamps at 0; a non-negative bound clamps at the
length.  Note `-0 == 0` in Python, so for `KEEP_RECENT_MESSAGES = 0` the
slices are `messages[1:0]` (empty) and `messages[0:]` (everything). -/

/-- Resolve one Python slice bound against a list of length `len`. -/
def pyBound (len : Nat) (i : Int) : Nat :=
  if i < 0 then ((len : Int) + i).toNat else min len i.toNat

/-- Python slice `l[a:b]`. -/
def pySlice {α : Type} (a b : Int) (l : List α) : List α :=
  (l.drop (pyBound l.length a)).take (pyBound l.length b - pyBound l.length a)

/-- Python slice `l[a:]`. -/
def pySliceFrom {α : Type} (a : Int) (l : List α) : List α :=
  l.drop (pyBound l.length a)

theorem pyBound_negCoe (len K : Nat) (h1 : 1 ≤ K) (h2 : K ≤ len) :
    pyBound len (-(K : Int)) = len - K := by
  unfold pyBound
  rw [if_pos (by omega)]
  omega

theorem pyBound_one (len : Nat) (h : 1 ≤ len) : pyBound len 1 = 1 := by
  unfold pyBound
  rw [if_neg (by omega)]
  simp
  omega

/-- For `1 ≤ K ≤ len`, `l[-K:]` is the suffix of the last `K` elements. -/
theorem pySliceFrom_neg {α : Type} (K : Nat) (l : List α)
    (h1 : 1 ≤ K) (h2 : K ≤ l.length) :
    pySliceFrom (-(K : Int)) l = l.drop (l.length - K) := by
  unfold pySliceFrom
  rw [pyBound_negCoe _ _ h1 h2]

/-- For `1 ≤ K < len`, `l[1:-K]` is everything strictly between the head
and the last `K` elements. -/
theorem pySlice_one_neg {α : Type} (K : Nat) (l : List α)
    (h1 : 1 ≤ K) (h2 : K + 1 ≤ l.length) :
    pySlice 1 (-(K : Int)) l = (l.drop 1).take (l.length - K - 1) := by
  unfold pySlice
  rw [pyBound_negCoe _ _ h1 (by omega), pyBound_one _ (by omega)]

/-! ## Conversation compaction (`llm.summarize_old_messages`)

The summarization transport (the `client.chat.completions.create` call) is
abstracted as a function from the request's user-prompt string to either the
summary text extracted from the response (`success`) or a raised exception
(`failure`), which the source catches.  The embedding also returns how many
transport calls were made and the human-readable status lines printed, so
that the zero-call guarantee and the auto/manual framing can be stated. -/

/-- Outcome of the single summarization transport call: the model output
on success, or any raised error. -/
inductive CallResult where
  | success (summary : String)
  | failure
deriving DecidableEq, Repr

/-- Result of one compactor invocation: the new message list, the number of
summarization transport calls made, and the status lines printed. -/
structure CompactResult where
  result : List Msg
  transportCalls : Nat
  status : List String
deriving DecidableEq, Repr

/-- The literal marker prepended to the summary content
(`f"Previous conversation summary: {summary}"`). -/
def summaryMarker : String := "Previous conversation summary: "

/-- The `conversation_text` block sent to the summarizer:
`"\n\n".join(f"{msg['role'].upper()}: {msg.get('content', '')}")`. -/
def conversationText (old_messages : List Msg) : String :=
  String.intercalate "\n\n"
    (old_messages.map (fun msg => msg.role.toUpper ++ ": " ++ msg.content))

/-- The user-prompt string of the summarization request. -/
def summaryUserPrompt (conversation_text : String) : String :=
  "Please create a concise summary of this conversation history, preserving key facts, decisions, and context:\n\n"
    ++ conversation_text

/-- Embedding of `llm.summarize_old_messages`, parameterized by `keepRecent`
(`KEEP_RECENT_MESSAGES`) and by the `transport` outcome of the embedded
summarization call. -/
def summarize_old_messages (keepRecent : Nat) (transport : String → CallResult)
    (auto : Bool) (messages : List Msg) : CompactResult :=
  if messages.length ≤ keepRecent + 1 then
    ⟨messages, 0, []⟩
  else
    let system_message := messages.headI
    let old_messages := pySlice 1 (-(keepRecent : Int)) messages
    let recent_messages := pySliceFrom (-(keepRecent : Int)) messages
    let statusLine :=
      if auto then "⚠ Token limit approaching. Summarizing conversation history..."
      else "ℹ Summarizing conversation history as requested..."
    match transport (summaryUserPrompt (conversationText old_messages)) with
    | .success summary =>
        let summary_message : Msg := ⟨"system", summaryMarker ++ summary⟩
        ⟨[system_message, summary_message] ++ recent_messages, 1,
          [statusLine, "✓ Summarized messages."]⟩
    | .failure =>
        ⟨system_message :: recent_messages, 1,
          [statusLine, "Error during summarization"]⟩

/-- Both slices of `summarize_old_messages` at `keepRecent = 0`: the
"recent" slice `messages[-0:]` is the whole list. -/
theorem pySliceFrom_zero {α : Type} (l : List α) :
    pySliceFrom (-((0 : Nat) : Int)) l = l := by
  simp [pySliceFrom, pyBound]

/-- The "old" slice `messages[1:-0]` is empty. -/
theorem pySlice_one_zero {α : Type} (l : List α) :
    pySlice 1 (-((0 : Nat) : Int)) l = [] := by
  simp [pySlice, pyBound]

/-- C4: for a conversation of length at most `keepRecent + 1`, compaction
returns the conversation unchanged and makes zero transport calls. -/
theorem claim_noop_guard (keepRecent : Nat) (transport : String → CallResult)
    (auto : Bool) (messages : List Msg)
    (h : messages.length ≤ keepRecent + 1) :
    (summarize_old_messages keepRecent transport auto messages).result = messages
      ∧ (summarize_old_messages keepRecent transport auto messages).transportCalls = 0 := by
  unfold summarize_old_messages
  rw [if_pos h]
  exact ⟨rfl, rfl⟩

theorem claim_noop_guard_witness :
    ([Msg.mk "system" "s", Msg.mk "user" "u"].length ≤ 6 + 1)
      ∧ (summarize_old_messages 6 (fun _ => CallResult.failure) true
            [Msg.mk "system" "s", Msg.mk "user" "u"]).result
          = [Msg.mk "system" "s", Msg.mk "user" "u"]
      ∧ (summarize_old_messages 6 (fun _ => CallResult.failure) true
            [Msg.mk "system" "s", Msg.mk "user" "u"]).transportCalls = 0 :=
  ⟨by decide,
   claim_noop_guard 6 (fun _ => CallResult.failure) true
     [Msg.mk "system" "s", Msg.mk "user" "u"] (by decide)⟩

/-- C9: the `auto` flag changes neither the returned message list nor the
number of transport calls; it only selects the status text. -/
theorem claim_auto_flag_invariance (keepRecent : Nat)
    (transport : String → CallResult) (messages : List Msg) :
    (summarize_old_messages keepRecent transport true messages).result
        = (summarize_old_messages keepRecent transport false messages).result
      ∧ (summarize_old_messages keepRecent transport true messages).transportCalls
        = (summarize_old_messages keepRecent transport false messages).transportCalls := by
  by_cases h : messages.length ≤ keepRecent + 1
  · simp [summarize_old_messages, h]
  · simp only [summarize_old_messages, if_neg h]
    rcases htr :
        transport (summaryUserPrompt (conversationText
          (pySlice 1 (-(keepRecent : Int)) messages))) with s | _ <;>
      simp [htr]

/-- C1: for a system message followed by `K + 5` further messages
(`1 ≤ K = keepRecent`), a successful compaction returns
`[system, summary] ++ recent`: length `K + 2`, element 0 the original
system message, element 1 a system-role message whose content is the
marker followed by the model output, and elements 2.. the original last
`K` messages in order. -/
theorem claim_compaction_shape_success
    (K : Nat) (hK : 1 ≤ K) (sys : Msg) (users : List Msg)
    (hlen : users.length = K + 5)
    (transport : String → CallResult) (s : String)
    (ht : ∀ p, transport p = CallResult.success s) (auto : Bool) :
    (summarize_old_messages K transport auto (sys :: users)).result
        = sys :: Msg.mk "system" (summaryMarker ++ s) :: users.drop 5
      ∧ (summarize_old_messages K transport auto (sys :: users)).result.length = K + 2
      ∧ (summarize_old_messages K transport auto (sys :: users)).result.drop 2
          = (sys :: users).drop ((sys :: users).length - K) := by
  have hlen' : (sys :: users).length = K + 6 := by simp [hlen]
  have hguard : ¬ (sys :: users).length ≤ K + 1 := by omega
  have hrecent : pySliceFrom (-(K : Int)) (sys :: users) = users.drop 5 := by
    rw [pySliceFrom_neg K _ hK (by omega), hlen']
    have h6 : K + 6 - K = 6 := by omega
    rw [h6, show (6 : Nat) = 5 + 1 from rfl, List.drop_succ_cons]
  have hres : (summarize_old_messages K transport auto (sys :: users)).result
      = sys :: Msg.mk "system" (summaryMarker ++ s) :: users.drop 5 := by
    simp only [summarize_old_messages, if_neg hguard, ht]
    simp [hrecent]
  refine ⟨hres, ?_, ?_⟩
  · rw [hres]
    simp [hlen]
  · rw [hres, hlen']
    have h6 : K + 6 - K = 6 := by omega
    rw [h6, show (6 : Nat) = 5 + 1 from rfl, List.drop_succ_cons]
    rfl

theorem claim_compaction_shape_success_witness :
    (1 ≤ 1)
      ∧ ([Msg.mk "user" "u1", Msg.mk "user" "u2", Msg.mk "user" "u3",
          Msg.mk "user" "u4", Msg.mk "user" "u5", Msg.mk "user" "u6"].length = 1 + 5)
      ∧ (summarize_old_messages 1 (fun _ => CallResult.success "S") true
            (Msg.mk "system" "sys" ::
              [Msg.mk "user" "u1", Msg.mk "user" "u2", Msg.mk "user" "u3",
               Msg.mk "user" "u4", Msg.mk "user" "u5", Msg.mk "user" "u6"])).result
          = Msg.mk "system" "sys" :: Msg.mk "system" (summaryMarker ++ "S") ::
              [Msg.mk "user" "u1", Msg.mk "user" "u2", Msg.mk "user" "u3",
               Msg.mk "user" "u4", Msg.mk "user" "u5", Msg.mk "user" "u6"].drop 5 :=
  ⟨by decide, by decide,
   (claim_compaction_shape_success 1 (by decide) (Msg.mk "system" "sys")
      [Msg.mk "user" "u1", Msg.mk "user" "u2", Msg.mk "user" "u3",
       Msg.mk "user" "u4", Msg.mk "user" "u5", Msg.mk "user" "u6"]
      (by decide) (fun _ => CallResult.success "S") "S" (fun _ => rfl) true).1⟩

/-- C3 (amended with `1 ≤ keepRecent`): when the transport call occurs and
raises, compaction returns exactly the original head followed by the last
`keepRecent` messages — length `keepRecent + 1` — and, being a total
function, propagates no exception. -/
theorem claim_compaction_failure_fallback
    (K : Nat) (hK : 1 ≤ K) (messages : List Msg) (hlen : K + 1 < messages.length)
    (transport : String → CallResult)
    (ht : ∀ p, transport p = CallResult.failure) (auto : Bool) :
    (summarize_old_messages K transport auto messages).result
        = messages.headI :: messages.drop (messages.length - K)
      ∧ (summarize_old_messages K transport auto messages).result.length = K + 1 := by
  have hguard : ¬ messages.length ≤ K + 1 := by omega
  have hrecent := pySliceFrom_neg K messages hK (by omega)
  have hres : (summarize_old_messages K transport auto messages).result
      = messages.headI :: messages.drop (messages.length - K) := by
    simp only [summarize_old_messages, if_neg hguard, ht]
    simp [hrecent]
  refine ⟨hres, ?_⟩
  rw [hres]
  simp
  omega

theorem claim_compaction_failure_fallback_witness :
    (1 ≤ 1)
      ∧ (1 + 1 < [Msg.mk "system" "s", Msg.mk "user" "u1", Msg.mk "user" "u2"].length)
      ∧ (summarize_old_messages 1 (fun _ => CallResult.failure) true
            [Msg.mk "system" "s", Msg.mk "user" "u1", Msg.mk "user" "u2"]).result
          = [Msg.mk "system" "s", Msg.mk "user" "u1", Msg.mk "user" "u2"].headI ::
              [Msg.mk "system" "s", Msg.mk "user" "u1", Msg.mk "user" "u2"].drop
                ([Msg.mk "system" "s", Msg.mk "user" "u1", Msg.mk "user" "u2"].length - 1) :=
  ⟨by decide, by decide,
   (claim_compaction_failure_fallback 1 (by decide)
      [Msg.mk "system" "s", Msg.mk "user" "u1", Msg.mk "user" "u2"] (by decide)
      (fun _ => CallResult.failure) (fun _ => rfl) true).1⟩

/-- C3 counterexample: with `keepRecent = 0` (allowed by the configuration
loader, which does not enforce positivity) the failure fallback is not
`[system] + last 0 messages` of length 1 — `messages[-0:]` is the whole
list, so the result is the system message prepended to the entire original
conversation. -/
theorem claim_compaction_failure_keepzero_cex :
    (summarize_old_messages 0 (fun _ => CallResult.failure) true
        [Msg.mk "system" "s", Msg.mk "user" "u"]).result
        = [Msg.mk "system" "s", Msg.mk "system" "s", Msg.mk "user" "u"]
      ∧ ¬ (summarize_old_messages 0 (fun _ => CallResult.failure) true
        [Msg.mk "system" "s", Msg.mk "user" "u"]).result.length = 0 + 1 := by
  decide

/-- C10: at `keepRecent = 0`, for any conversation of length at least 2, a
successful compaction makes the transport call, treats the whole original
list as the "recent" tail, and returns `head :: summary :: original` —
length grows to `len + 2` and the system message appears twice. -/
theorem claim_keepzero_success_growth
    (m0 : Msg) (rest : List Msg) (hr : rest ≠ [])
    (transport : String → CallResult) (s : String)
    (ht : ∀ p, transport p = CallResult.success s) (auto : Bool) :
    (summarize_old_messages 0 transport auto (m0 :: rest)).result
        = m0 :: Msg.mk "system" (summaryMarker ++ s) :: (m0 :: rest)
      ∧ (summarize_old_messages 0 transport auto (m0 :: rest)).result.length
          = (m0 :: rest).length + 2
      ∧ (summarize_old_messages 0 transport auto (m0 :: rest)).transportCalls = 1 := by
  have hlen : 1 ≤ rest.length := by
    cases rest with
    | nil => exact absurd rfl hr
    | cons a t => simp
  have hguard : ¬ (m0 :: rest).length ≤ 0 + 1 := by
    simp only [List.length_cons]
    omega
  have hres : (summarize_old_messages 0 transport auto (m0 :: rest)).result
      = m0 :: Msg.mk "system" (summaryMarker ++ s) :: (m0 :: rest) := by
    simp only [summarize_old_messages, if_neg hguard, ht]
    simp [pySliceFrom, pyBound]
  refine ⟨hres, ?_, ?_⟩
  · rw [hres]
    simp
  · simp only [summarize_old_messages, if_neg hguard, ht]

theorem claim_keepzero_success_growth_witness :
    (([Msg.mk "user" "u"] : List Msg) ≠ [])
      ∧ (summarize_old_messages 0 (fun _ => CallResult.success "S") true
            [Msg.mk "system" "s", Msg.mk "user" "u"]).result
          = Msg.mk "system" "s" :: Msg.mk "system" (summaryMarker ++ "S") ::
              [Msg.mk "system" "s", Msg.mk "user" "u"] :=
  ⟨by decide,
   (claim_keepzero_success_growth (Msg.mk "system" "s") [Msg.mk "user" "u"]
      (by decide) (fun _ => CallResult.success "S") "S" (fun _ => rfl) true).1⟩

/-! ## Summary detection and extraction (`handlers.cmd_summary`)

`cmd_summary` detects a summary with
`len(messages) > 1 and messages[1].get("role") == "system"` plus
`content.startswith("Previous conversation summary:")`, and extracts it
with `content.replace("Previous conversation summary:", "").strip()`.
Python string methods are embedded over the character list `String.data`:
`startswith` is a list-prefix test, `replace` substitutes every
non-overlapping occurrence left to right (our pattern is nonempty), and
`strip` drops whitespace from both ends, with Python's whitespace class
(`str.isspace()`) embedded as `pyIsSpace`. -/

/-- Python `s.startswith(pre)`. -/
def pyStartswith (s pre : String) : Bool :=
  pre.data.isPrefixOf s.data

/-- Fuel-driven scanner of Python `str.replace` for a nonempty pattern:
at each position, either the pattern matches and is replaced, or the
character is kept.  Any fuel at least the length of the subject list is
enough; the fuel only makes the recursion structural. -/
def pyReplaceCore : Nat → List Char → List Char → List Char → List Char
  | 0, _, _, l => l
  | _ + 1, _, _, [] => []
  | fuel + 1, pat, rep, c :: rest =>
    if 0 < pat.length && pat.isPrefixOf (c :: rest) then
      rep ++ pyReplaceCore fuel pat rep ((c :: rest).drop pat.length)
    else
      c :: pyReplaceCore fuel pat rep rest

/-- Python `s.replace(old, new)` for nonempty `old` (the only use in the source). -/
def pyReplace (s old new : String) : String :=
  ⟨pyReplaceCore s.data.length old.data new.data s.data⟩

/-- The whitespace class of Python's `str.strip()` / `str.isspace()`: the
Unicode code points CPython treats as whitespace (ASCII whitespace and
vertical tab, the information separators U+001C-U+001F, NEL U+0085,
NBSP U+00A0, OGHAM U+1680, the U+2000-U+200A spaces, line and paragraph
separators U+2028/U+2029, and U+202F, U+205F, U+3000). -/
def pyIsSpace (c : Char) : Bool :=
  let n := c.toNat
  (9 ≤ n && n ≤ 13) || (28 ≤ n && n ≤ 32) || n == 0x85 || n == 0xA0
    || n == 0x1680 || (0x2000 ≤ n && n ≤ 0x200A) || n == 0x2028
    || n == 0x2029 || n == 0x202F || n == 0x205F || n == 0x3000

/-- Python `s.strip()`: drop whitespace from both ends. -/
def pyStrip (s : String) : String :=
  ⟨((s.data.dropWhile pyIsSpace).reverse.dropWhile pyIsSpace).reverse⟩

/-- The literal matched by the detection and extraction code
(no trailing space, unlike `summaryMarker`). -/
def detectMarker : String := "Previous conversation summary:"

/-- Embedding of the `cmd_summary` detection: index 1 exists, has role `"system"`, and its
content starts with `detectMarker` (the `isinstance(content, str)` check is
vacuous here because contents are modelled as strings). -/
def hasSummary (messages : List Msg) : Bool :=
  match messages[1]? with
  | some m => m.role == "system" && pyStartswith m.content detectMarker
  | none => false

/-- Embedding of the `cmd_summary` extraction:
`content.replace("Previous conversation summary:", "").strip()`. -/
def extractSummary (content : String) : String :=
  pyStrip (pyReplace content detectMarker "")

/-- Whether `pat` occurs as a contiguous sublist of `l` (Python's `in`). -/
def containsSub (pat : List Char) : List Char → Bool
  | [] => pat.isPrefixOf []
  | c :: rest => pat.isPrefixOf (c :: rest) || containsSub pat rest

theorem isPrefixOf_append (a b : List Char) : a.isPrefixOf (a ++ b) = true := by
  induction a with
  | nil => simp [List.isPrefixOf]
  | cons c cs ih => simp [List.isPrefixOf, ih]

/-- The replace scan leaves a subject without any pattern occurrence
unchanged. -/
theorem pyReplaceCore_no_occur (pat rep : List Char) :
    ∀ (fuel : Nat) (l : List Char), containsSub pat l = false →
      pyReplaceCore fuel pat rep l = l := by
  intro fuel
  induction fuel with
  | zero => intro l _; rfl
  | succ n ih =>
      intro l h
      cases l with
      | nil => rfl
      | cons c rest =>
          simp only [containsSub, Bool.or_eq_false_iff] at h
          simp [pyReplaceCore, h.1, ih rest h.2]

/-- The replace scan on a subject beginning with the (nonempty) pattern
replaces that occurrence and continues after it. -/
theorem pyReplaceCore_head_match (pat rep tail : List Char) (fuel : Nat)
    (hp : pat ≠ []) :
    pyReplaceCore (fuel + 1) pat rep (pat ++ tail)
      = rep ++ pyReplaceCore fuel pat rep tail := by
  cases pat with
  | nil => exact absurd rfl hp
  | cons p ps =>
      have hpre := isPrefixOf_append (p :: ps) tail
      simp only [List.cons_append] at hpre
      simp [pyReplaceCore, hpre, List.drop_succ_cons, List.drop_left]

theorem marker_not_prefix_of_space (l : List Char) :
    detectMarker.data.isPrefixOf (' ' :: l) = false := by
  have hm : detectMarker.data = 'P' :: "revious conversation summary:".data := rfl
  have hc : ('P' == ' ') = false := by decide
  rw [hm]
  simp [List.isPrefixOf, hc]

theorem marker_space_data (X : String) :
    (summaryMarker ++ X).data = detectMarker.data ++ (' ' :: X.data) := by
  show summaryMarker.data ++ X.data = detectMarker.data ++ (' ' :: X.data)
  rw [show summaryMarker.data = detectMarker.data ++ [' '] from rfl]
  simp

/-- Extraction behaviour on a well-behaved payload: if `X` neither carries
leading/trailing whitespace nor contains the marker literal, stripping the
replaced content recovers `X` exactly. -/
theorem extract_marker_space (X : String)
    (h1 : X.data.dropWhile pyIsSpace = X.data)
    (h2 : X.data.reverse.dropWhile pyIsSpace = X.data.reverse)
    (h3 : containsSub detectMarker.data X.data = false) :
    extractSummary (summaryMarker ++ X) = X := by
  have hfuel : (summaryMarker ++ X).data.length
      = (detectMarker.data.length + X.data.length) + 1 := by
    rw [marker_space_data]
    simp
    omega
  have hocc : containsSub detectMarker.data (' ' :: X.data) = false := by
    simp [containsSub, marker_not_prefix_of_space, h3]
  have hrep : pyReplace (summaryMarker ++ X) detectMarker ""
      = ⟨' ' :: X.data⟩ := by
    unfold pyReplace
    rw [hfuel, marker_space_data]
    rw [pyReplaceCore_head_match _ _ _ _ (by decide)]
    rw [pyReplaceCore_no_occur _ _ _ _ hocc]
    rfl
  rw [extractSummary, hrep]
  unfold pyStrip
  have hws : pyIsSpace ' ' = true := by decide
  show String.mk _ = X
  rw [show (String.mk (' ' :: X.data)).data = ' ' :: X.data from rfl]
  rw [List.dropWhile_cons_of_pos hws, h1, h2]
  simp

/-- C5 (amended): for every payload `X` with no leading or trailing
whitespace and not containing the marker literal, a conversation whose
index-1 message is `{role: "system", content: "Previous conversation
summary: " + X}` is detected as summarized, and extraction yields exactly
`X`.  (Unrestricted `X` fails: extraction strips whitespace from `X` and
deletes marker occurrences inside `X`.) -/
theorem claim_summary_roundtrip (X : String) (messages : List Msg)
    (hidx : messages[1]? = some (Msg.mk "system" (summaryMarker ++ X)))
    (h1 : X.data.dropWhile pyIsSpace = X.data)
    (h2 : X.data.reverse.dropWhile pyIsSpace = X.data.reverse)
    (h3 : containsSub detectMarker.data X.data = false) :
    hasSummary messages = true
      ∧ extractSummary (summaryMarker ++ X) = X := by
  constructor
  · unfold hasSummary
    rw [hidx]
    have hsw : pyStartswith (summaryMarker ++ X) detectMarker = true := by
      unfold pyStartswith
      rw [marker_space_data]
      exact isPrefixOf_append _ _
    simp [hsw]
  · exact extract_marker_space X h1 h2 h3

theorem claim_summary_roundtrip_witness :
    hasSummary [Msg.mk "system" "sys",
        Msg.mk "system" (summaryMarker ++ "hello")] = true
      ∧ extractSummary (summaryMarker ++ "hello") = "hello" :=
  claim_summary_roundtrip "hello"
    [Msg.mk "system" "sys", Msg.mk "system" (summaryMarker ++ "hello")]
    rfl (by decide) (by decide) (by decide)

/-- C5 counterexample: for `X = "a "` the detection predicate holds but
extraction yields `"a"`, not `X` — `strip()` removes the payload's own
trailing whitespace, so the round-trip fails for arbitrary `X`. -/
theorem claim_summary_roundtrip_cex :
    hasSummary [Msg.mk "system" "sys",
        Msg.mk "system" (summaryMarker ++ "a ")] = true
      ∧ extractSummary (summaryMarker ++ "a ") = "a"
      ∧ extractSummary (summaryMarker ++ "a ") ≠ "a " := by
  refine ⟨by decide, by decide, by decide⟩

/-! ## Session persistence (`session.save_session` / `session.load_session`)

`save_session` writes `json.dump(messages, f, indent=2)`; `load_session`
returns `json.load(f)` when the file exists, `None` when it does not, and
`None` when any exception is raised (unreadable file, JSON parse error).
The on-disk state of a path is modelled as either absent, present but not
parseable as JSON (`garbage`), or present holding a JSON document denoting
a Python value `v` — `json.dump` followed by `json.load` reproduces the
dumped object graph for the JSON-representable values used here, so the
file stores the value itself.  A filesystem maps paths to such states, and
the possibility of an I/O failure during `save_session` (caught by its
`except` clause) is an explicit input. -/

/-- A JSON-representable Python value, as produced by `json.load`. -/
inductive PyObj where
  | pnull
  | pbool (b : Bool)
  | pint (n : Int)
  | pstr (s : String)
  | plist (xs : List PyObj)
  | pdict (kvs : List (String × PyObj))

/-- The persisted state of one path. -/
inductive FileContent where
  | absent
  | garbage
  | stored (v : PyObj)

/-- A message serialized by `json.dump`: an object with the `role` and
`content` keys. -/
def encodeMsg (m : Msg) : PyObj :=
  .pdict [("role", .pstr m.role), ("content", .pstr m.content)]

/-- A conversation serialized by `json.dump`: the JSON array of its
messages, in order, with no envelope. -/
def encodeConv (c : List Msg) : PyObj :=
  .plist (c.map encodeMsg)

/-- Embedding of `session.save_session`: on I/O success, overwrite `path` with the JSON
document of the conversation and return `True`; on any I/O failure the
`except` clause reports and returns `False`. -/
def save_session (messages : List Msg) (fs : String → FileContent)
    (path : String) (ioOk : Bool) : Bool × (String → FileContent) :=
  if ioOk then
    (true, fun p => if p = path then .stored (encodeConv messages) else fs p)
  else
    (false, fs)

/-- Embedding of `session.load_session`: the parsed JSON value if the file exists and
parses, `None` otherwise.  The function is total: no exception escapes. -/
def load_session (fs : String → FileContent) (path : String) : Option PyObj :=
  match fs path with
  | .absent => none
  | .garbage => none
  | .stored v => some v

/-- Python `dict` lookup on a decoded JSON object (the keys produced by
`encodeMsg` are distinct, so first match equals last-wins). -/
def pdictGet : PyObj → String → Option PyObj
  | .pdict kvs, k => (kvs.find? (fun kv => kv.1 == k)).map (fun kv => kv.2)
  | _, _ => none

/-- The shape the session format prescribes for a stored conversation: a
JSON array of objects each carrying `role` and `content` keys.  (Stated
from the spec's session-file description, for claim C8.) -/
def isMessageArray : PyObj → Bool
  | .plist xs =>
      xs.all (fun o =>
        match o with
        | .pdict kvs =>
            (kvs.any (fun kv => kv.1 == "role"))
              && (kvs.any (fun kv => kv.1 == "content"))
        | _ => false)
  | _ => false

/-- C6: when `save_session` succeeds, loading the same path yields a JSON
array of the same length whose `i`-th object carries exactly the `role`
and `content` of the `i`-th saved message. -/
theorem claim_session_roundtrip (ms : List Msg) (fs : String → FileContent)
    (path : String) (ioOk : Bool)
    (h : (save_session ms fs path ioOk).1 = true) :
    ∃ l : List PyObj,
      load_session (save_session ms fs path ioOk).2 path = some (.plist l)
        ∧ l.length = ms.length
        ∧ ∀ (i : Nat) (m : Msg), ms[i]? = some m →
            ∃ o, l[i]? = some o
              ∧ pdictGet o "role" = some (.pstr m.role)
              ∧ pdictGet o "content" = some (.pstr m.content) := by
  have hio : ioOk = true := by
    by_contra hno
    simp [save_session, hno] at h
  subst hio
  refine ⟨ms.map encodeMsg, ?_, by simp, ?_⟩
  · simp [save_session, load_session, encodeConv]
  · intro i m hm
    refine ⟨encodeMsg m, ?_, rfl, ?_⟩
    · simp [List.getElem?_map, hm]
    · rfl

theorem claim_session_roundtrip_witness :
    ((save_session [Msg.mk "system" "s", Msg.mk "user" "u"]
        (fun _ => FileContent.absent) "session.json" true).1 = true)
      ∧ (∃ l : List PyObj,
          load_session (save_session [Msg.mk "system" "s", Msg.mk "user" "u"]
              (fun _ => FileContent.absent) "session.json" true).2 "session.json"
            = some (.plist l)
          ∧ l.length = [Msg.mk "system" "s", Msg.mk "user" "u"].length
          ∧ ∀ (i : Nat) (m : Msg), [Msg.mk "system" "s", Msg.mk "user" "u"][i]? = some m →
              ∃ o, l[i]? = some o
                ∧ pdictGet o "role" = some (.pstr m.role)
                ∧ pdictGet o "content" = some (.pstr m.content)) :=
  ⟨rfl,
   claim_session_roundtrip [Msg.mk "system" "s", Msg.mk "user" "u"]
     (fun _ => FileContent.absent) "session.json" true rfl⟩

/-- C7: `load_session` is `none` both when the file is missing and when its
contents do not parse as JSON; being a total function, it raises nothing in
either case. -/
theorem claim_load_missing_or_corrupt (fs : String → FileContent) (path : String)
    (h : fs path = FileContent.absent ∨ fs path = FileContent.garbage) :
    load_session fs path = none := by
  rcases h with h | h <;> simp [load_session, h]

theorem claim_load_missing_or_corrupt_witness :
    ((fun _ => FileContent.garbage) "p" = FileContent.absent
        ∨ (fun _ => FileContent.garbage) "p" = FileContent.garbage)
      ∧ load_session (fun _ => FileContent.garbage) "p" = none :=
  ⟨Or.inr rfl,
   claim_load_missing_or_corrupt (fun _ => FileContent.garbage) "p" (Or.inr rfl)⟩

/-- C8 counterexample: a file holding the valid JSON document `42` — not an
array of message objects — is not treated as corrupted: `load_session`
returns the parsed value, not `none`. -/
theorem claim_load_incompatible_cex :
    isMessageArray (.pint 42) = false
      ∧ load_session (fun _ => FileContent.stored (.pint 42)) "p" = some (.pint 42)
      ∧ load_session (fun _ => FileContent.stored (.pint 42)) "p" ≠ none :=
  ⟨rfl, rfl, by simp [load_session]⟩

/-- C8 (amended): `load_session` performs no shape validation — whenever
the file parses as JSON it returns the parsed value unchanged, whatever its
shape; only a missing file or a parse failure yields `none`. -/
theorem claim_load_incompatible (fs : String → FileContent) (path : String)
    (v : PyObj) (h : fs path = FileContent.stored v) :
    load_session fs path = some v := by
  simp [load_session, h]

theorem claim_load_incompatible_witness :
    ((fun _ => FileContent.stored (.pint 42)) "p" = FileContent.stored (.pint 42))
      ∧ load_session (fun _ => FileContent.stored (.pint 42)) "p" = some (.pint 42) :=
  ⟨rfl, claim_load_incompatible (fun _ => FileContent.stored (.pint 42)) "p"
    (.pint 42) rfl⟩

end Zorac
